import Mathlib

/-!
Shallow embedding of the duplicate-asset scanner (`AssetAudit` in
`asset-audit.js`) of the vr-desktop repository, together with proofs of the
behavioural claims about it.

The scanner walks a directory tree, filters entries by exclusion pattern,
extension allow-list and minimum size, hashes the surviving files and groups
them by content digest.  The embedding below models the file system as an
inductive tree (`FSTree`/`FSForest`), I/O failures as `Option`/`Except`
values, and the MD5 digest as a parameter `md5 : List Nat → String` over raw
byte lists.  JavaScript exceptions thrown inside the per-directory loop of
`scanDirectory` (only `fs.statSync` can throw there) abort the remaining
entries of that directory and are caught by that directory's `try`; this is
modelled by `Except ScanState ScanState`, where `.error` carries the state at
the throw point.
-/

namespace AssetAudit

/-- The platform path separator (`path.sep`); POSIX form. -/
def pathSep : String := "/"

/-- `path.join dir name` for a non-empty `dir` and a separator-free `name`. -/
def joinPath (a b : String) : String :=
  if a = "" then b else a ++ pathSep ++ b

/-- Does `pat` occur at the head of `s`? (helper for the substring test). -/
def startsWithL : List Char → List Char → Bool
  | [], _ => true
  | _ :: _, [] => false
  | p :: ps, c :: cs => p = c && startsWithL ps cs

/-- Does `pat` occur anywhere inside `s`? (helper for the substring test). -/
def containsSeg (pat : List Char) : List Char → Bool
  | [] => pat.isEmpty
  | c :: rest => startsWithL pat (c :: rest) || containsSeg pat rest

/-- JavaScript `String.prototype.includes`: substring containment. -/
def strContains (s pat : String) : Bool :=
  containsSeg pat.toList s.toList

/-- The basename of a path: everything after the last separator. -/
def basenameStr (s : String) : String :=
  String.mk ((s.toList.reverse.takeWhile (fun c => c ≠ '/')).reverse)

/-- Node's `path.extname`: the suffix of the basename starting at its last
dot, or the empty string when the basename has no dot or only a leading
dot (so `".git"` has extension `""`). -/
def extname (s : String) : String :=
  let cs := (basenameStr s).toList
  let afterDot := cs.reverse.takeWhile (fun c => c ≠ '.')
  if afterDot.length = cs.length then ""
  else
    let dotIdx := cs.length - afterDot.length - 1
    if dotIdx = 0 then "" else String.mk (cs.drop dotIdx)

/-- JavaScript `String.prototype.toLowerCase` (ASCII range, which covers
every extension string involved). -/
def lowerStr (s : String) : String :=
  String.mk (s.toList.map Char.toLower)

/-- The scanner's effective configuration (`this.options`).  `minSize` is an
`Int` because `parseInt` can produce negative values. -/
structure ScanOptions where
  minSize : Int
  excludePatterns : List String
  verbose : Bool
  json : Bool
  extensions : List String
deriving Repr, DecidableEq

/-- Default exclusion patterns from the constructor. -/
def defaultExcludePatterns : List String :=
  ["node_modules", ".git", "dist", "build", ".next", "coverage"]

/-- Default extension allow-list from the constructor. -/
def defaultExtensions : List String :=
  [".png", ".jpg", ".jpeg", ".gif", ".svg", ".webp", ".ico", ".avif",
   ".woff", ".woff2", ".ttf", ".eot", ".otf",
   ".mp4", ".webm", ".mp3", ".wav", ".pdf"]

/-- The `options` object handed to the constructor.  `minSize = none` models
an absent field or a `NaN` produced by `parseInt`; `some 0` is the falsy
number `0`.  An empty `exclude` array is truthy in JavaScript, hence
`Option (List String)` rather than collapsing `some []` to the default. -/
structure CliOptions where
  minSize : Option Int
  exclude : Option (List String)
  verbose : Bool
  json : Bool
  extensions : Option (List String)
deriving Repr, DecidableEq

/-- Baseline `options` object: `{}` (every field absent / false). -/
def emptyCliOptions : CliOptions :=
  { minSize := none, exclude := none, verbose := false, json := false,
    extensions := none }

/-- `options.minSize || 100`: the default kicks in exactly when the value is
falsy (absent, `NaN`, or `0`). -/
def orDefaultMinSize : Option Int → Int
  | none => 100
  | some 0 => 100
  | some n => n

/-- The constructor of `AssetAudit`: fills every field with its default when
the given value is falsy (for `exclude`/`extensions`, only when absent — an
empty array is truthy). -/
def mkOptions (o : CliOptions) : ScanOptions :=
  { minSize := orDefaultMinSize o.minSize,
    excludePatterns := o.exclude.getD defaultExcludePatterns,
    verbose := o.verbose,
    json := o.json,
    extensions := o.extensions.getD defaultExtensions }

/-- The options produced by `new AssetAudit({})`. -/
def defaultOptions : ScanOptions := mkOptions emptyCliOptions

/-- JavaScript `parseInt` restricted to decimal notation: skip leading
whitespace, read an optional sign and then leading decimal digits, ignoring
any trailing garbage; `none` models `NaN` (no leading digit).  The automatic
hexadecimal radix for a `0x` prefix is not modelled: no claim depends on it. -/
def jsParseInt (s : String) : Option Int :=
  let cs := s.toList.dropWhile (fun c => c = ' ' || c = '\t' || c = '\n' || c = '\r')
  let core : List Char → Option Nat := fun l =>
    let ds := l.takeWhile (fun c => c.isDigit)
    if ds.isEmpty then none
    else some (ds.foldl (fun a c => a * 10 + (c.toNat - 48)) 0)
  match cs with
  | '-' :: rest => (core rest).map (fun n => -(n : Int))
  | '+' :: rest => (core rest).map (fun n => (n : Int))
  | _ => (core cs).map (fun n => (n : Int))

/-- `main`'s handling of `--min-size`: `parseInt(value) || 100`, where the
value is absent when the argument has no `=` part. -/
def parseMinSizeArg : Option String → Int
  | none => 100
  | some s =>
    match jsParseInt s with
    | none => 100
    | some 0 => 100
    | some n => n

/-- One entry of a `filesByHash` bucket (the object pushed in `processFile`). -/
structure FileRecord where
  path : String
  relativePath : String
  size : Nat
  extension : String
deriving Repr, DecidableEq

/-- Placeholder record used to make `files[0]` total; `buildGroups` only
reads it from buckets of length ≥ 2. -/
def defaultRecord : FileRecord :=
  { path := "", relativePath := "", size := 0, extension := "" }

/-- The scanner's mutable instance state: the `filesByHash` map (a JS `Map`,
so keys keep insertion order and each bucket keeps push order) and the two
counters. -/
structure ScanState where
  filesByHash : List (String × List FileRecord)
  processedFiles : Nat
  totalFiles : Nat
deriving Repr, DecidableEq

/-- The state installed by the constructor: empty map, zero counters. -/
def initState : ScanState :=
  { filesByHash := [], processedFiles := 0, totalFiles := 0 }

/-- `Map.get(hash).push(record)` preceded by `Map.set(hash, [])` when the key
is new: append the record to its bucket, creating the bucket at the end of
the map when the key is absent. -/
def insertRecord (m : List (String × List FileRecord)) (h : String)
    (r : FileRecord) : List (String × List FileRecord) :=
  match m with
  | [] => [(h, [r])]
  | (k, rs) :: rest =>
    if k = h then (k, rs ++ [r]) :: rest else (k, rs) :: insertRecord rest h r

/-- The bucket stored under key `h` (empty when the key is absent). -/
def lookupBucket (m : List (String × List FileRecord)) (h : String) :
    List FileRecord :=
  match m with
  | [] => []
  | (k, rs) :: rest => if k = h then rs else lookupBucket rest h

/-- Total number of `FileRecord` entries stored in the map. -/
def sumRecords (m : List (String × List FileRecord)) : Nat :=
  (m.map (fun e => e.2.length)).sum

mutual
/-- A file-system tree as the scanner observes it.  A `file` carries the
result of `fs.statSync` (`none` = the call throws) and of `fs.readFileSync`
(`none` = the call throws); a `dir` carries its `fs.readdirSync` listing in
listing order; an `unreadableDir` is a directory whose `readdirSync` throws. -/
inductive FSTree where
  | file (name : String) (statRes : Option Nat) (content : Option (List Nat)) : FSTree
  | dir (name : String) (children : FSForest) : FSTree
  | unreadableDir (name : String) : FSTree
deriving Repr
inductive FSForest where
  | nil : FSForest
  | cons (e : FSTree) (rest : FSForest) : FSForest
deriving Repr
end

/-- The entry's name (`entry.name` from `readdirSync`). -/
def FSTree.name : FSTree → String
  | .file n _ _ => n
  | .dir n _ => n
  | .unreadableDir n => n

/-- `shouldExclude`: some pattern occurs in the path, either bare or wrapped
in separators (the second disjunct is subsumed by the first; it is kept to
mirror the source). -/
def shouldExclude (opts : ScanOptions) (p : String) : Bool :=
  opts.excludePatterns.any
    (fun pat => strContains p pat || strContains p (pathSep ++ pat ++ pathSep))

/-- `hasValidExtension`: the lowercased extension of the entry name is in the
allow-list. -/
def hasValidExtension (opts : ScanOptions) (name : String) : Bool :=
  opts.extensions.contains (lowerStr (extname name))

/-- `getFileHash`: digest of the raw content, or `null` when the read throws. -/
def getFileHash (md5 : List Nat → String) (content : Option (List Nat)) :
    Option String :=
  content.map md5

/-- The object pushed onto the bucket in `processFile`. -/
def recordOf (fullPath relPath : String) (size : Nat) : FileRecord :=
  { path := fullPath, relativePath := relPath, size := size,
    extension := lowerStr (extname fullPath) }

/-- `processFile`: bump the processed counter, then store a record under the
content digest — unless the read failed, in which case the file is omitted. -/
def processFile (md5 : List Nat → String) (fullPath relPath : String)
    (size : Nat) (content : Option (List Nat)) (st : ScanState) : ScanState :=
  let st1 := { st with processedFiles := st.processedFiles + 1 }
  match getFileHash md5 content with
  | none => st1
  | some h =>
    let r := recordOf fullPath relPath size
    { st1 with filesByHash := insertRecord st1.filesByHash h r }

mutual
/-- The `for` loop of `scanDirectory`, iterating `scanEntry` over the
listing.  `relDir` is the relative path of the directory being listed (so
each entry's relative path is `joinPath relDir name`).  An `.error` result
models a thrown `statSync` exception: it aborts the rest of the current
directory's entries and is caught by that directory's `try`/`catch`, which
is the `match` in `scanEntry`'s `dir` case. -/
def scanForest (md5 : List Nat → String) (opts : ScanOptions)
    (rootDir relDir : String) (es : FSForest) (st : ScanState) :
    Except ScanState ScanState :=
  match es with
  | .nil => .ok st
  | .cons e rest =>
    match scanEntry md5 opts rootDir relDir e st with
    | .error s => .error s
    | .ok s => scanForest md5 opts rootDir relDir rest s
termination_by structural es

/-- The body of `scanDirectory`'s `for` loop for one entry: exclusion check,
then recursion for directories, or the extension / size filters followed by
`processFile` for files. -/
def scanEntry (md5 : List Nat → String) (opts : ScanOptions)
    (rootDir relDir : String) (e : FSTree) (st : ScanState) :
    Except ScanState ScanState :=
  match e with
  | .file name statRes content =>
    let relPath := joinPath relDir name
    if shouldExclude opts relPath then .ok st
    else if hasValidExtension opts name then
      let st1 := { st with totalFiles := st.totalFiles + 1 }
      match statRes with
      | none => .error st1
      | some size =>
        if (size : Int) ≥ opts.minSize then
          .ok (processFile md5 (joinPath rootDir relPath) relPath size content st1)
        else .ok st1
    else .ok st
  | .dir name children =>
    let relPath := joinPath relDir name
    if shouldExclude opts relPath then .ok st
    else
      .ok (match scanForest md5 opts rootDir relPath children st with
           | .ok s => s
           | .error s => s)
  | .unreadableDir _ =>
    -- the recursive `scanDirectory` call's `readdirSync` throws and is
    -- caught by that call's own `try`; the state is unchanged whether or
    -- not the path is excluded
    .ok st
termination_by structural e
end

/-- The top-level `scanDirectory(directory)` call made by `analyze`: list the
root (throwing, hence skipping, when it is not a readable directory) and run
the loop with an empty relative prefix, catching an aborting `statSync`
exception at this level. -/
def scanDirectory (md5 : List Nat → String) (opts : ScanOptions)
    (rootDir : String) (root : FSTree) (st : ScanState) : ScanState :=
  match root with
  | .dir _ children =>
    match scanForest md5 opts rootDir "" children st with
    | .ok s => s
    | .error s => s
  | _ => st

/-- The scanner state after `analyze` has finished walking the tree,
starting from the constructor's fresh state. -/
def finalState (md5 : List Nat → String) (opts : ScanOptions)
    (rootDir : String) (root : FSTree) : ScanState :=
  scanDirectory md5 opts rootDir root initState

/-- One duplicate group as pushed by `analyze`. -/
structure DuplicateGroup where
  hash : String
  count : Nat
  fileSize : Nat
  wastedBytes : Nat
  extension : String
  files : List String
deriving Repr, DecidableEq

/-- The `stats` object of the report. -/
structure ScanStats where
  totalFilesScanned : Nat
  totalFilesProcessed : Nat
  uniqueFiles : Nat
  duplicateGroups : Nat
  totalDuplicates : Nat
  totalWastedBytes : Nat
deriving Repr, DecidableEq

/-- The value returned by `analyze`. -/
structure ScanReport where
  stats : ScanStats
  duplicateGroups : List DuplicateGroup
deriving Repr, DecidableEq

/-- The group object built from one bucket (`files[0]` is total via
`headD`; it is only ever read from buckets of length ≥ 2). -/
def mkGroup (h : String) (files : List FileRecord) : DuplicateGroup :=
  { hash := h,
    count := files.length,
    fileSize := (files.headD defaultRecord).size,
    wastedBytes := (files.headD defaultRecord).size * (files.length - 1),
    extension := (files.headD defaultRecord).extension,
    files := files.map (fun f => f.relativePath) }

/-- `analyze`'s first loop: collect every bucket with more than one record
into a group, in map (= discovery) order, accumulating the wasted bytes. -/
def buildGroups : List (String × List FileRecord) → List DuplicateGroup × Nat
  | [] => ([], 0)
  | (h, files) :: rest =>
    let acc := buildGroups rest
    if 1 < files.length then
      ((mkGroup h files) :: acc.1,
       (files.headD defaultRecord).size * (files.length - 1) + acc.2)
    else acc

/-- Insert a group into a list already sorted by descending `wastedBytes`,
after every earlier group with strictly larger wasted bytes and before the
first one that is not larger — the placement a stable descending sort gives. -/
def insertGroup (g : DuplicateGroup) : List DuplicateGroup → List DuplicateGroup
  | [] => [g]
  | h :: t =>
    if g.wastedBytes < h.wastedBytes then h :: insertGroup g t else g :: h :: t

/-- `duplicateGroups.sort((a, b) => b.wastedBytes - a.wastedBytes)`: a stable
descending sort by wasted bytes (JavaScript's `Array.prototype.sort` is
stable), realized as an insertion sort. -/
def sortGroups : List DuplicateGroup → List DuplicateGroup
  | [] => []
  | g :: rest => insertGroup g (sortGroups rest)

/-- The groups in discovery order, before sorting. -/
def rawGroupList (md5 : List Nat → String) (opts : ScanOptions)
    (rootDir : String) (root : FSTree) : List DuplicateGroup :=
  (buildGroups (finalState md5 opts rootDir root).filesByHash).1

/-- `analyze(directory)`: walk the tree from the constructor's fresh state,
derive the duplicate groups, sort them, and assemble the report. -/
def analyze (md5 : List Nat → String) (opts : ScanOptions)
    (rootDir : String) (root : FSTree) : ScanReport :=
  let st := finalState md5 opts rootDir root
  let bg := buildGroups st.filesByHash
  let sorted := sortGroups bg.1
  { stats :=
    { totalFilesScanned := st.totalFiles,
      totalFilesProcessed := st.processedFiles,
      uniqueFiles := st.filesByHash.length,
      duplicateGroups := sorted.length,
      totalDuplicates := sorted.foldl (fun acc g => acc + g.count - 1) 0,
      totalWastedBytes := bg.2 },
    duplicateGroups := sorted }

/-- Fold a list of (record, content) pairs into the hash map, inserting each
record under the digest of its content — the cumulative effect of the
successful `processFile` calls. -/
def stApply (md5 : List Nat → String) (m : List (String × List FileRecord)) :
    List (FileRecord × List Nat) → List (String × List FileRecord) :=
  List.foldl (fun acc rc => insertRecord acc (md5 rc.2) rc.1) m

mutual
/-- Specification companion of `scanEntry`: the (record, content) pairs of
the files this entry contributes to the hash map, in discovery order, plus a
flag marking a `statSync` throw that aborts the enclosing directory's loop. -/
def pairsEntry (opts : ScanOptions) (rootDir relDir : String) (e : FSTree) :
    List (FileRecord × List Nat) × Bool :=
  match e with
  | .file name statRes content =>
    let relPath := joinPath relDir name
    if shouldExclude opts relPath then ([], false)
    else if hasValidExtension opts name then
      match statRes with
      | none => ([], true)
      | some size =>
        if (size : Int) ≥ opts.minSize then
          match content with
          | some c => ([(recordOf (joinPath rootDir relPath) relPath size, c)], false)
          | none => ([], false)
        else ([], false)
    else ([], false)
  | .dir name children =>
    let relPath := joinPath relDir name
    if shouldExclude opts relPath then ([], false)
    else ((pairsForest opts rootDir relPath children).1, false)
  | .unreadableDir _ => ([], false)
termination_by structural e

/-- Specification companion of `scanForest`: concatenate the entries' pairs,
stopping after an entry whose `statSync` threw. -/
def pairsForest (opts : ScanOptions) (rootDir relDir : String)
    (es : FSForest) : List (FileRecord × List Nat) × Bool :=
  match es with
  | .nil => ([], false)
  | .cons e rest =>
    let p := pairsEntry opts rootDir relDir e
    if p.2 then (p.1, true)
    else
      let q := pairsForest opts rootDir relDir rest
      (p.1 ++ q.1, q.2)
termination_by structural es
end

/-- The (record, content) pairs of every file the whole scan hashes
successfully, in discovery order. -/
def pairsRoot (opts : ScanOptions) (rootDir : String) (root : FSTree) :
    List (FileRecord × List Nat) :=
  match root with
  | .dir _ children => (pairsForest opts rootDir "" children).1
  | _ => []

mutual
/-- Every file this entry actually submits to hashing — it passes the
exclusion, extension and size filters and its `statSync` succeeds — is read
successfully.  Files the scan never reads (excluded paths, extensions
outside the allow-list, files below the minimum size, files whose `statSync`
throws) are exempt. -/
def submittedReadT (opts : ScanOptions) (rootDir relDir : String) :
    FSTree → Bool
  | .file name statRes content =>
    if shouldExclude opts (joinPath relDir name) then true
    else if hasValidExtension opts name then
      match statRes with
      | none => true
      | some size =>
        if (size : Int) ≥ opts.minSize then content.isSome else true
    else true
  | .dir name children =>
    if shouldExclude opts (joinPath relDir name) then true
    else submittedReadF opts rootDir (joinPath relDir name) children
  | .unreadableDir _ => true
termination_by structural t => t

/-- Every file this listing actually submits to hashing is read
successfully; entries after one whose `statSync` throws are never visited,
so they are exempt along with their subtrees. -/
def submittedReadF (opts : ScanOptions) (rootDir relDir : String) :
    FSForest → Bool
  | .nil => true
  | .cons e rest =>
    if (pairsEntry opts rootDir relDir e).2 then
      submittedReadT opts rootDir relDir e
    else
      submittedReadT opts rootDir relDir e &&
        submittedReadF opts rootDir relDir rest
termination_by structural f => f
end

/-- Submitted-files readability for the whole scan of `root` (the root
directory itself is listed without an exclusion check, with an empty
relative prefix, matching `analyze`'s top-level `scanDirectory` call). -/
def submittedReadRoot (opts : ScanOptions) (rootDir : String) : FSTree → Bool
  | .dir _ children => submittedReadF opts rootDir "" children
  | _ => true

/-- The state carried by either outcome of the loop (on `.error` it is the
state at the moment `statSync` threw). -/
def stateOf : Except ScanState ScanState → ScanState
  | .ok s => s
  | .error s => s

/-- Did the loop finish without a `statSync` throw? -/
def finishedOk : Except ScanState ScanState → Bool
  | .ok _ => true
  | .error _ => false

/-- The map's keys are pairwise distinct (an invariant of `insertRecord`). -/
def keysNodup (m : List (String × List FileRecord)) : Prop :=
  (m.map Prod.fst).Nodup

theorem lookupBucket_insertRecord (m : List (String × List FileRecord))
    (k h : String) (r : FileRecord) :
    lookupBucket (insertRecord m k r) h =
      if h = k then lookupBucket m k ++ [r] else lookupBucket m h := by
  induction m with
  | nil =>
    by_cases hk : h = k
    · subst hk
      simp [insertRecord, lookupBucket]
    · simp [insertRecord, lookupBucket, hk, Ne.symm hk]
  | cons e rest ih =>
    obtain ⟨k', rs⟩ := e
    by_cases h1 : k' = k
    · subst h1
      by_cases h2 : h = k'
      · subst h2
        simp [insertRecord, lookupBucket]
      · simp [insertRecord, lookupBucket, h2, Ne.symm h2]
    · by_cases h2 : k' = h
      · subst h2
        simp [insertRecord, lookupBucket, h1, Ne.symm h1, ih]
      · simp [insertRecord, lookupBucket, h1, h2, ih]

theorem sumRecords_insertRecord (m : List (String × List FileRecord))
    (k : String) (r : FileRecord) :
    sumRecords (insertRecord m k r) = sumRecords m + 1 := by
  induction m with
  | nil => simp [insertRecord, sumRecords]
  | cons e rest ih =>
    obtain ⟨k', rs⟩ := e
    by_cases h1 : k' = k <;> simp [insertRecord, sumRecords, h1] <;>
      simp [sumRecords] at ih <;> omega

theorem keys_insertRecord (m : List (String × List FileRecord))
    (k : String) (r : FileRecord) :
    (insertRecord m k r).map Prod.fst =
      if k ∈ m.map Prod.fst then m.map Prod.fst else m.map Prod.fst ++ [k] := by
  induction m with
  | nil => simp [insertRecord]
  | cons e rest ih =>
    obtain ⟨k', rs⟩ := e
    by_cases h1 : k' = k
    · subst h1
      simp [insertRecord]
    · by_cases h2 : k ∈ rest.map Prod.fst <;>
        simp [insertRecord, h1, ih, h2, Ne.symm h1]

theorem keysNodup_insertRecord (m : List (String × List FileRecord))
    (k : String) (r : FileRecord) (hm : keysNodup m) :
    keysNodup (insertRecord m k r) := by
  unfold keysNodup at hm ⊢
  rw [keys_insertRecord]
  by_cases h2 : k ∈ m.map Prod.fst
  · simpa [h2] using hm
  · simp only [h2, if_false]
    rw [List.nodup_append]
    refine ⟨hm, List.nodup_singleton k, ?_⟩
    intro a ha hb
    simp at hb
    subst hb
    exact h2 ha

theorem stApply_cons (md5 : List Nat → String)
    (m : List (String × List FileRecord)) (rc : FileRecord × List Nat)
    (ps : List (FileRecord × List Nat)) :
    stApply md5 m (rc :: ps) = stApply md5 (insertRecord m (md5 rc.2) rc.1) ps :=
  rfl

theorem stApply_append (md5 : List Nat → String)
    (m : List (String × List FileRecord))
    (ps qs : List (FileRecord × List Nat)) :
    stApply md5 m (ps ++ qs) = stApply md5 (stApply md5 m ps) qs :=
  List.foldl_append _ _ _ _

theorem mem_lookupBucket_stApply (md5 : List Nat → String) :
    ∀ (ps : List (FileRecord × List Nat)) (m : List (String × List FileRecord))
      (h : String) (r : FileRecord),
      r ∈ lookupBucket (stApply md5 m ps) h ↔
        r ∈ lookupBucket m h ∨ ∃ c, (r, c) ∈ ps ∧ md5 c = h := by
  intro ps
  induction ps with
  | nil => simp [stApply]
  | cons rc rest ih =>
    intro m h r
    obtain ⟨r', c'⟩ := rc
    rw [stApply_cons, ih, lookupBucket_insertRecord]
    by_cases hk : h = md5 c'
    · subst hk
      simp only [if_pos rfl, List.mem_append, List.mem_singleton, List.mem_cons,
        Prod.mk.injEq]
      aesop
    · simp only [if_neg hk, List.mem_cons, Prod.mk.injEq]
      aesop

theorem sumRecords_stApply (md5 : List Nat → String) :
    ∀ (ps : List (FileRecord × List Nat)) (m : List (String × List FileRecord)),
      sumRecords (stApply md5 m ps) = sumRecords m + ps.length := by
  intro ps
  induction ps with
  | nil => simp [stApply]
  | cons rc rest ih =>
    intro m
    rw [stApply_cons, ih, sumRecords_insertRecord]
    simp
    omega

theorem keysNodup_stApply (md5 : List Nat → String) :
    ∀ (ps : List (FileRecord × List Nat)) (m : List (String × List FileRecord)),
      keysNodup m → keysNodup (stApply md5 m ps) := by
  intro ps
  induction ps with
  | nil => exact fun m hm => hm
  | cons rc rest ih =>
    intro m hm
    rw [stApply_cons]
    exact ih _ (keysNodup_insertRecord _ _ _ hm)

theorem lookupBucket_eq_of_mem (m : List (String × List FileRecord))
    (h : String) (files : List FileRecord) (hnd : keysNodup m)
    (hmem : (h, files) ∈ m) : lookupBucket m h = files := by
  induction m with
  | nil => cases hmem
  | cons e rest ih =>
    obtain ⟨k, rs⟩ := e
    rcases List.mem_cons.mp hmem with heq | hrest
    · obtain ⟨h1, h2⟩ := Prod.mk.injEq .. ▸ heq
      cases heq
      simp [lookupBucket]
    · unfold keysNodup at hnd
      rw [List.map_cons, List.nodup_cons] at hnd
      have hk : k ≠ h := by
        intro hkh
        subst hkh
        exact hnd.1 (List.mem_map.mpr ⟨(k, files), hrest, rfl⟩)
      simp [lookupBucket, hk, ih hnd.2 hrest]

/-- Relation between one step of the walk and its specification companion:
the hash map grows exactly by inserting the step's (record, content) pairs;
the loop aborts exactly when the companion's flag is set; and when every
file involved is readable, the processed counter grows by the number of
pairs. -/
def LinkOK (md5 : List Nat → String) (st : ScanState)
    (res : Except ScanState ScanState)
    (pr : List (FileRecord × List Nat) × Bool) (rdbl : Bool) : Prop :=
  (stateOf res).filesByHash = stApply md5 st.filesByHash pr.1
  ∧ finishedOk res = !pr.2
  ∧ (rdbl = true →
      (stateOf res).processedFiles = st.processedFiles + pr.1.length)

theorem mem_of_lookupBucket (m : List (String × List FileRecord)) (h : String) :
    lookupBucket m h ≠ [] → (h, lookupBucket m h) ∈ m := by
  induction m with
  | nil => simp [lookupBucket]
  | cons e rest ih =>
    obtain ⟨k, rs⟩ := e
    by_cases hk : k = h
    · subst hk
      simp [lookupBucket]
    · simp only [lookupBucket, if_neg hk]
      intro hne
      exact List.mem_cons_of_mem _ (ih hne)

mutual
/-- One loop iteration satisfies the link relation with `pairsEntry`. -/
theorem scanEntry_link (md5 : List Nat → String) (opts : ScanOptions)
    (rootDir : String) (e : FSTree) :
    ∀ (relDir : String) (st : ScanState),
      LinkOK md5 st (scanEntry md5 opts rootDir relDir e st)
        (pairsEntry opts rootDir relDir e)
        (submittedReadT opts rootDir relDir e) :=
  match e with
  | .file name statRes content => by
    intro relDir st
    by_cases hexc : shouldExclude opts (joinPath relDir name)
    · simp [LinkOK, scanEntry, pairsEntry, hexc, stApply, stateOf, finishedOk]
    · by_cases hext : hasValidExtension opts name
      · rcases statRes with _ | size
        · simp [LinkOK, scanEntry, pairsEntry, hexc, hext, stApply, stateOf,
            finishedOk]
        · by_cases hsz : (size : Int) ≥ opts.minSize
          · rcases content with _ | c
            · simp [LinkOK, scanEntry, pairsEntry, hexc, hext, hsz, stApply,
                stateOf, finishedOk, processFile, getFileHash, submittedReadT]
            · simp [LinkOK, scanEntry, pairsEntry, hexc, hext, hsz, stApply,
                stateOf, finishedOk, processFile, getFileHash, submittedReadT,
                stApply_cons]
          · simp [LinkOK, scanEntry, pairsEntry, hexc, hext, hsz, stApply,
              stateOf, finishedOk]
      · simp [LinkOK, scanEntry, pairsEntry, hexc, hext, stApply, stateOf,
          finishedOk]
  | .dir name children => by
    intro relDir st
    by_cases hexc : shouldExclude opts (joinPath relDir name)
    · simp [LinkOK, scanEntry, pairsEntry, hexc, stApply, stateOf, finishedOk]
    · have hf := scanForest_link md5 opts rootDir children (joinPath relDir name) st
      rcases hres : scanForest md5 opts rootDir (joinPath relDir name) children st
        with s | s <;>
        rw [hres] at hf <;>
        simp only [LinkOK, scanEntry, hexc, hres, stateOf, finishedOk,
          submittedReadT, pairsEntry, Bool.false_eq_true, if_false] at hf ⊢ <;>
        exact ⟨hf.1, rfl, hf.2.2⟩
  | .unreadableDir name => by
    intro relDir st
    simp [LinkOK, scanEntry, pairsEntry, stApply, stateOf, finishedOk,
      submittedReadT]
termination_by structural e

/-- The whole loop over a listing satisfies the link relation with
`pairsForest`. -/
theorem scanForest_link (md5 : List Nat → String) (opts : ScanOptions)
    (rootDir : String) (es : FSForest) :
    ∀ (relDir : String) (st : ScanState),
      LinkOK md5 st (scanForest md5 opts rootDir relDir es st)
        (pairsForest opts rootDir relDir es)
        (submittedReadF opts rootDir relDir es) :=
  match es with
  | .nil => by
    intro relDir st
    simp [LinkOK, scanForest, pairsForest, stApply, stateOf, finishedOk,
      submittedReadF]
  | .cons e rest => by
    intro relDir st
    have he := scanEntry_link md5 opts rootDir e relDir st
    rcases hres : scanEntry md5 opts rootDir relDir e st with s | s <;>
      rw [hres] at he
    · -- `statSync` threw inside this entry: abort the rest of the loop
      have hflag : (pairsEntry opts rootDir relDir e).2 = true := by
        cases hp : (pairsEntry opts rootDir relDir e).2 with
        | true => rfl
        | false =>
          have h := he.2.1
          rw [hp] at h
          simp [finishedOk] at h
      simp only [LinkOK, scanForest, hres, pairsForest, hflag, if_pos,
        stateOf, finishedOk, submittedReadF] at he ⊢
      refine ⟨he.1, rfl, ?_⟩
      intro hrd
      exact he.2.2 hrd
    · have hflag : (pairsEntry opts rootDir relDir e).2 = false := by
        cases hp : (pairsEntry opts rootDir relDir e).2 with
        | false => rfl
        | true =>
          have h := he.2.1
          rw [hp] at h
          simp [finishedOk] at h
      have hr := scanForest_link md5 opts rootDir rest relDir s
      simp only [LinkOK, scanForest, hres, pairsForest, hflag, Bool.false_eq_true,
        if_false, stateOf, finishedOk, submittedReadF] at he hr ⊢
      refine ⟨?_, ?_, ?_⟩
      · rw [stApply_append, ← he.1, hr.1]
      · exact hr.2.1
      · intro hrd
        obtain ⟨hrd1, hrd2⟩ := (Bool.and_eq_true _ _).mp hrd
        rw [List.length_append, hr.2.2 hrd2, he.2.2 hrd1]
        omega
termination_by structural es
end



theorem finalState_filesByHash (md5 : List Nat → String) (opts : ScanOptions)
    (rootDir : String) (root : FSTree) :
    (finalState md5 opts rootDir root).filesByHash =
      stApply md5 [] (pairsRoot opts rootDir root) := by
  cases root with
  | file name statRes content => simp [finalState, scanDirectory, pairsRoot,
      stApply, initState]
  | unreadableDir name => simp [finalState, scanDirectory, pairsRoot, stApply,
      initState]
  | dir name children =>
    have hf := scanForest_link md5 opts rootDir children "" initState
    simp only [finalState, scanDirectory, pairsRoot]
    rcases hres : scanForest md5 opts rootDir "" children initState with s | s <;>
      rw [hres] at hf <;>
      simpa [stateOf, initState] using hf.1

theorem finalState_processedFiles (md5 : List Nat → String)
    (opts : ScanOptions) (rootDir : String) (root : FSTree)
    (hrd : submittedReadRoot opts rootDir root = true) :
    (finalState md5 opts rootDir root).processedFiles =
      (pairsRoot opts rootDir root).length := by
  cases root with
  | file name statRes content => simp [finalState, scanDirectory, pairsRoot,
      initState]
  | unreadableDir name => simp [finalState, scanDirectory, pairsRoot, initState]
  | dir name children =>
    have hf := scanForest_link md5 opts rootDir children "" initState
    simp only [submittedReadRoot] at hrd
    simp only [finalState, scanDirectory, pairsRoot]
    rcases hres : scanForest md5 opts rootDir "" children initState with s | s <;>
      rw [hres] at hf <;>
      simpa [stateOf, initState] using hf.2.2 hrd

theorem finalState_keysNodup (md5 : List Nat → String) (opts : ScanOptions)
    (rootDir : String) (root : FSTree) :
    keysNodup (finalState md5 opts rootDir root).filesByHash := by
  rw [finalState_filesByHash]
  exact keysNodup_stApply md5 _ [] (by simp [keysNodup])

theorem mem_lookupBucket_finalState (md5 : List Nat → String)
    (opts : ScanOptions) (rootDir : String) (root : FSTree) (h : String)
    (r : FileRecord) :
    r ∈ lookupBucket (finalState md5 opts rootDir root).filesByHash h ↔
      ∃ c, (r, c) ∈ pairsRoot opts rootDir root ∧ md5 c = h := by
  rw [finalState_filesByHash, mem_lookupBucket_stApply]
  simp [lookupBucket]

theorem buildGroups_snd (m : List (String × List FileRecord)) :
    (buildGroups m).2 = ((buildGroups m).1.map (fun g => g.wastedBytes)).sum := by
  induction m with
  | nil => simp [buildGroups]
  | cons e rest ih =>
    obtain ⟨h, files⟩ := e
    by_cases hl : 1 < files.length <;> simp [buildGroups, hl, ih, mkGroup]

theorem mem_buildGroups_of (m : List (String × List FileRecord)) (h : String)
    (files : List FileRecord) (hmem : (h, files) ∈ m)
    (hlen : 1 < files.length) : mkGroup h files ∈ (buildGroups m).1 := by
  induction m with
  | nil => cases hmem
  | cons e rest ih =>
    obtain ⟨k, rs⟩ := e
    rcases List.mem_cons.mp hmem with heq | hrest
    · cases heq
      simp [buildGroups, hlen]
    · by_cases hl : 1 < rs.length <;> simp [buildGroups, hl, ih hrest]

theorem mem_buildGroups_elim (m : List (String × List FileRecord))
    (g : DuplicateGroup) (hg : g ∈ (buildGroups m).1) :
    ∃ h files, (h, files) ∈ m ∧ 1 < files.length ∧ g = mkGroup h files := by
  induction m with
  | nil => simp [buildGroups] at hg
  | cons e rest ih =>
    obtain ⟨k, rs⟩ := e
    by_cases hl : 1 < rs.length
    · rw [buildGroups] at hg
      simp only [hl, if_pos] at hg
      rcases List.mem_cons.mp hg with heq | htail
      · exact ⟨k, rs, List.mem_cons_self _ _, hl, heq⟩
      · obtain ⟨h, files, hm, hlen, hgg⟩ := ih htail
        exact ⟨h, files, List.mem_cons_of_mem _ hm, hlen, hgg⟩
    · rw [buildGroups] at hg
      simp only [hl, if_neg, if_false] at hg
      obtain ⟨h, files, hm, hlen, hgg⟩ := ih hg
      exact ⟨h, files, List.mem_cons_of_mem _ hm, hlen, hgg⟩

theorem insertGroup_perm (g : DuplicateGroup) (l : List DuplicateGroup) :
    (insertGroup g l).Perm (g :: l) := by
  induction l with
  | nil => simp [insertGroup]
  | cons h t ih =>
    by_cases hc : g.wastedBytes < h.wastedBytes
    · simp only [insertGroup, if_pos hc]
      exact (ih.cons h).trans (List.Perm.swap g h t)
    · simp [insertGroup, hc]

theorem sortGroups_perm (l : List DuplicateGroup) :
    (sortGroups l).Perm l := by
  induction l with
  | nil => simp [sortGroups]
  | cons g rest ih => exact (insertGroup_perm g (sortGroups rest)).trans (ih.cons g)

theorem mem_sortGroups (l : List DuplicateGroup) (a : DuplicateGroup) :
    a ∈ sortGroups l ↔ a ∈ l :=
  (sortGroups_perm l).mem_iff

theorem insertGroup_sorted (g : DuplicateGroup) (l : List DuplicateGroup)
    (hl : l.Pairwise (fun a b => b.wastedBytes ≤ a.wastedBytes)) :
    (insertGroup g l).Pairwise (fun a b => b.wastedBytes ≤ a.wastedBytes) := by
  induction l with
  | nil => simp [insertGroup]
  | cons h t ih =>
    rw [List.pairwise_cons] at hl
    by_cases hc : g.wastedBytes < h.wastedBytes
    · rw [insertGroup, if_pos hc, List.pairwise_cons]
      refine ⟨?_, ih hl.2⟩
      intro a ha
      rcases List.mem_cons.mp ((insertGroup_perm g t).mem_iff.mp ha) with hag | hat
      · subst hag
        exact le_of_lt hc
      · exact hl.1 a hat
    · rw [insertGroup, if_neg hc, List.pairwise_cons]
      refine ⟨?_, List.pairwise_cons.mpr hl⟩
      intro a ha
      rcases List.mem_cons.mp ha with hah | hat
      · subst hah
        omega
      · exact le_trans (hl.1 a hat) (by omega)

theorem sortGroups_sorted (l : List DuplicateGroup) :
    (sortGroups l).Pairwise (fun a b => b.wastedBytes ≤ a.wastedBytes) := by
  induction l with
  | nil => simp [sortGroups]
  | cons g rest ih => exact insertGroup_sorted g (sortGroups rest) ih

theorem filter_insertGroup (w : Nat) (g : DuplicateGroup)
    (l : List DuplicateGroup) :
    (insertGroup g l).filter (fun x => x.wastedBytes == w) =
      (if g.wastedBytes = w then [g] else []) ++
        l.filter (fun x => x.wastedBytes == w) := by
  induction l with
  | nil =>
    by_cases hw : g.wastedBytes = w <;>
      simp [insertGroup, List.filter_cons, beq_iff_eq, hw]
  | cons h t ih =>
    by_cases hc : g.wastedBytes < h.wastedBytes
    · rw [insertGroup, if_pos hc]
      by_cases hww : h.wastedBytes = w
      · have hgw : ¬ g.wastedBytes = w := by omega
        simp [List.filter_cons, beq_iff_eq, hww, hgw, ih]
      · simp [List.filter_cons, beq_iff_eq, hww, ih]
    · rw [insertGroup, if_neg hc]
      by_cases hw : g.wastedBytes = w <;>
        simp [List.filter_cons, beq_iff_eq, hw]

theorem filter_sortGroups (w : Nat) (l : List DuplicateGroup) :
    (sortGroups l).filter (fun x => x.wastedBytes == w) =
      l.filter (fun x => x.wastedBytes == w) := by
  induction l with
  | nil => simp [sortGroups]
  | cons g rest ih =>
    rw [sortGroups, filter_insertGroup, ih]
    by_cases hw : g.wastedBytes = w <;>
      simp [List.filter_cons, beq_iff_eq, hw]

/-- Concrete digest used in the concrete instances below: the decimal
rendering of the content's first byte.  It is injective on the contents that
actually occur in those instances. -/
def exampleHash (c : List Nat) : String := toString (c.headD 0)

/-- Scenario-A style tree: `a.png` and `b.png` byte-identical, `c.png`
different, all 500 bytes. -/
def treeDup : FSTree :=
  .dir "r" (.cons (.file "a.png" (some 500) (some [1, 2]))
    (.cons (.file "b.png" (some 500) (some [1, 2]))
      (.cons (.file "c.png" (some 500) (some [3])) .nil)))

/-- Scenario-B style tree: one 50-byte `tiny.png`, below the default
100-byte minimum. -/
def treeTiny : FSTree :=
  .dir "r" (.cons (.file "tiny.png" (some 50) (some [7])) .nil)

/-- A tree whose single eligible file fails to read (`readFileSync` throws). -/
def treeBad : FSTree :=
  .dir "r" (.cons (.file "a.png" (some 200) none) .nil)

/-- Claim C3: every directory entry whose path relative to the scan root
contains a configured exclude pattern as a substring is never visited — the
iteration skips it entirely, so an excluded directory is not descended into
and an excluded file is neither counted in any statistic nor hashed, even if
its extension and size would qualify. -/
theorem excluded_entry_not_visited (md5 : List Nat → String)
    (opts : ScanOptions) (rootDir relDir : String) (e : FSTree)
    (st : ScanState)
    (hpat : ∃ pat ∈ opts.excludePatterns,
      strContains (joinPath relDir e.name) pat = true) :
    scanEntry md5 opts rootDir relDir e st = .ok st := by
  have hexc : shouldExclude opts (joinPath relDir e.name) = true := by
    obtain ⟨pat, hp, hc⟩ := hpat
    unfold shouldExclude
    exact List.any_eq_true.mpr ⟨pat, hp, by simp [hc]⟩
  cases e with
  | file name statRes content =>
    rw [FSTree.name] at hexc
    simp [scanEntry, hexc]
  | dir name children =>
    rw [FSTree.name] at hexc
    simp [scanEntry, hexc]
  | unreadableDir name => simp [scanEntry]

/-- Witness for C3: under the default options, a `node_modules` directory
prefix excludes an otherwise eligible file. -/
theorem excluded_entry_not_visited_witness :
    (∃ pat ∈ defaultOptions.excludePatterns,
      strContains (joinPath "node_modules"
        (FSTree.file "a.png" (some 500) (some [1])).name) pat = true)
    ∧ scanEntry exampleHash defaultOptions "/r" "node_modules"
        (.file "a.png" (some 500) (some [1])) initState = .ok initState :=
  ⟨by decide,
   excluded_entry_not_visited exampleHash defaultOptions "/r" "node_modules"
     (.file "a.png" (some 500) (some [1])) initState (by decide)⟩

/-- Claim C4: a non-excluded file with an allowed extension whose size is
below `minSize` bumps the total-files counter but is neither hashed nor
counted as processed — the resulting state differs from the input state only
in `totalFiles`. -/
theorem small_file_counted_not_processed (md5 : List Nat → String)
    (opts : ScanOptions) (rootDir relDir name : String) (size : Nat)
    (content : Option (List Nat)) (st : ScanState)
    (hexc : shouldExclude opts (joinPath relDir name) = false)
    (hext : hasValidExtension opts name = true)
    (hsz : (size : Int) < opts.minSize) :
    scanEntry md5 opts rootDir relDir (.file name (some size) content) st =
      .ok { st with totalFiles := st.totalFiles + 1 } := by
  have hnot : ¬ ((size : Int) ≥ opts.minSize) := by omega
  simp [scanEntry, hexc, hext, hnot]

/-- Witness for C4: a 50-byte png under the default 100-byte minimum. -/
theorem small_file_counted_not_processed_witness :
    shouldExclude defaultOptions (joinPath "" "tiny.png") = false
    ∧ scanEntry exampleHash defaultOptions "/r" ""
        (.file "tiny.png" (some 50) (some [7])) initState =
      .ok { initState with totalFiles := 1 } :=
  ⟨by decide,
   small_file_counted_not_processed exampleHash defaultOptions "/r" ""
     "tiny.png" 50 (some [7]) initState (by decide) (by decide) (by decide)⟩

/-- Counterexample to claim C5 (which asserts that a file smaller than
`minSize` is not counted as scanned): in a tree whose only file is a 50-byte
`tiny.png`, the report counts one scanned file, not zero. -/
theorem small_file_still_counted_cex :
    ¬ ((analyze exampleHash defaultOptions "/r" treeTiny).stats.totalFilesScanned
        = 0) := by decide

/-- Claim C5 as amended: a non-excluded file with an allowed extension that
is smaller than `minSize` is skipped by hashing (no hash-map change, no
processed-counter change) but is still counted in the total-files-scanned
statistic. -/
theorem small_file_skips_hashing_only (md5 : List Nat → String)
    (opts : ScanOptions) (rootDir relDir name : String) (size : Nat)
    (content : Option (List Nat)) (st : ScanState)
    (hexc : shouldExclude opts (joinPath relDir name) = false)
    (hext : hasValidExtension opts name = true)
    (hsz : (size : Int) < opts.minSize) :
    ∃ st', scanEntry md5 opts rootDir relDir (.file name (some size) content) st
        = .ok st'
      ∧ st'.filesByHash = st.filesByHash
      ∧ st'.processedFiles = st.processedFiles
      ∧ st'.totalFiles = st.totalFiles + 1 := by
  have hnot : ¬ ((size : Int) ≥ opts.minSize) := by omega
  exact ⟨{ st with totalFiles := st.totalFiles + 1 },
    by simp [scanEntry, hexc, hext, hnot], rfl, rfl, rfl⟩

/-- Witness for the amended C5. -/
theorem small_file_skips_hashing_only_witness :
    (50 : Int) < defaultOptions.minSize
    ∧ ∃ st', scanEntry exampleHash defaultOptions "/r" ""
          (.file "tiny.png" (some 50) (some [7])) initState = .ok st'
        ∧ st'.filesByHash = initState.filesByHash
        ∧ st'.processedFiles = initState.processedFiles
        ∧ st'.totalFiles = initState.totalFiles + 1 :=
  ⟨by decide,
   small_file_skips_hashing_only exampleHash defaultOptions "/r" "" "tiny.png"
     50 (some [7]) initState (by decide) (by decide) (by decide)⟩

/-- Claim C9: the scan is a deterministic function of the tree (contents and
listing order) and the options — two runs over equal trees with equal
options, each starting from the constructor's fresh state, produce equal
reports. -/
theorem scan_deterministic (md5 : List Nat → String) (rootDir : String)
    (o1 o2 : ScanOptions) (t1 t2 : FSTree) (ho : o1 = o2) (ht : t1 = t2) :
    analyze md5 o1 rootDir t1 = analyze md5 o2 rootDir t2 := by
  subst ho
  subst ht
  rfl

/-- Witness for C9: two runs over the same tree agree. -/
theorem scan_deterministic_witness :
    analyze exampleHash defaultOptions "/r" treeDup =
      analyze exampleHash defaultOptions "/r" treeDup :=
  scan_deterministic exampleHash "/r" defaultOptions defaultOptions
    treeDup treeDup rfl rfl

/-- Claim C10: every falsy configured minimum size (absent, `NaN` from a
non-numeric `--min-size`, or `0`) is replaced by the default 100, both in
`main`'s argument parsing and in the constructor; consequently a zero
threshold cannot be configured, and under `--min-size=0` an eligible file of
1 to 99 bytes is still not hashed. -/
theorem falsy_min_size_defaults_to_100 :
    (∀ v : Option Int, v = none ∨ v = some 0 → orDefaultMinSize v = 100)
    ∧ parseMinSizeArg none = 100
    ∧ (∀ s, jsParseInt s = none → parseMinSizeArg (some s) = 100)
    ∧ parseMinSizeArg (some "0") = 100
    ∧ (mkOptions { emptyCliOptions with
        minSize := some (parseMinSizeArg (some "0")) }).minSize = 100
    ∧ (∀ (md5 : List Nat → String) (opts : ScanOptions)
        (rootDir relDir name : String) (size : Nat)
        (content : Option (List Nat)) (st : ScanState),
        opts.minSize = 100 →
        shouldExclude opts (joinPath relDir name) = false →
        hasValidExtension opts name = true →
        1 ≤ size → size ≤ 99 →
        scanEntry md5 opts rootDir relDir (.file name (some size) content) st =
          .ok { st with totalFiles := st.totalFiles + 1 }) := by
  refine ⟨?_, rfl, ?_, by decide, by decide, ?_⟩
  · rintro v (rfl | rfl) <;> rfl
  · intro s hs
    simp [parseMinSizeArg, hs]
  · intro md5 opts rootDir relDir name size content st hmin hexc hext h1 h99
    have hnot : ¬ ((size : Int) ≥ opts.minSize) := by omega
    simp [scanEntry, hexc, hext, hnot]

/-- Witness for C10: `--min-size=abc` and `--min-size=0` both yield 100, and
a 60-byte png is then skipped by hashing. -/
theorem falsy_min_size_defaults_to_100_witness :
    jsParseInt "abc" = none
    ∧ parseMinSizeArg (some "abc") = 100
    ∧ scanEntry exampleHash defaultOptions "/r" ""
        (.file "b.png" (some 60) (some [9])) initState =
      .ok { initState with totalFiles := 1 } :=
  ⟨by decide,
   falsy_min_size_defaults_to_100.2.2.1 "abc" (by decide),
   falsy_min_size_defaults_to_100.2.2.2.2.2 exampleHash defaultOptions "/r" ""
     "b.png" 60 (some [9]) initState (by decide) (by decide) (by decide)
     (by decide) (by decide)⟩

theorem analyze_duplicateGroups (md5 : List Nat → String) (opts : ScanOptions)
    (rootDir : String) (root : FSTree) :
    (analyze md5 opts rootDir root).duplicateGroups =
      sortGroups (buildGroups (finalState md5 opts rootDir root).filesByHash).1 :=
  rfl

theorem analyze_totalWastedBytes (md5 : List Nat → String) (opts : ScanOptions)
    (rootDir : String) (root : FSTree) :
    (analyze md5 opts rootDir root).stats.totalWastedBytes =
      (buildGroups (finalState md5 opts rootDir root).filesByHash).2 :=
  rfl

theorem analyze_totalFilesProcessed (md5 : List Nat → String)
    (opts : ScanOptions) (rootDir : String) (root : FSTree) :
    (analyze md5 opts rootDir root).stats.totalFilesProcessed =
      (finalState md5 opts rootDir root).processedFiles :=
  rfl

/-- Claim C2: a duplicate group built from a bucket of N ≥ 2 records that all
have size S reports `wastedBytes = S * (N - 1)`, and the report's
`totalWastedBytes` is the sum of `wastedBytes` over the reported groups. -/
theorem wasted_bytes_correct (md5 : List Nat → String) (opts : ScanOptions)
    (rootDir : String) (root : FSTree) :
    (∀ (h : String) (files : List FileRecord) (S : Nat),
      (h, files) ∈ (finalState md5 opts rootDir root).filesByHash →
      1 < files.length →
      (∀ r ∈ files, r.size = S) →
      ∃ g ∈ (analyze md5 opts rootDir root).duplicateGroups,
        g.hash = h ∧ g.count = files.length ∧
        g.wastedBytes = S * (files.length - 1))
    ∧ (analyze md5 opts rootDir root).stats.totalWastedBytes =
        ((analyze md5 opts rootDir root).duplicateGroups.map
          (fun g => g.wastedBytes)).sum := by
  constructor
  · intro h files S hmem hlen hsz
    refine ⟨mkGroup h files, ?_, rfl, rfl, ?_⟩
    · rw [analyze_duplicateGroups, mem_sortGroups]
      exact mem_buildGroups_of _ h files hmem hlen
    · obtain ⟨r0, rest, hfiles⟩ : ∃ r0 rest, files = r0 :: rest := by
        cases files with
        | nil => simp at hlen
        | cons a t => exact ⟨a, t, rfl⟩
      subst hfiles
      simp only [mkGroup, List.headD_cons]
      rw [hsz r0 (List.mem_cons_self _ _)]
  · rw [analyze_totalWastedBytes, analyze_duplicateGroups, buildGroups_snd]
    exact (((sortGroups_perm _).map (fun g => g.wastedBytes)).sum_eq).symm

/-- Witness for C2 at the scenario-A tree: the 500-byte pair wastes 500
bytes. -/
theorem wasted_bytes_correct_witness :
    ("1", [recordOf "/r/a.png" "a.png" 500, recordOf "/r/b.png" "b.png" 500])
      ∈ (finalState exampleHash defaultOptions "/r" treeDup).filesByHash
    ∧ ∃ g ∈ (analyze exampleHash defaultOptions "/r" treeDup).duplicateGroups,
        g.hash = "1" ∧
        g.count = [recordOf "/r/a.png" "a.png" 500,
          recordOf "/r/b.png" "b.png" 500].length ∧
        g.wastedBytes = 500 * ([recordOf "/r/a.png" "a.png" 500,
          recordOf "/r/b.png" "b.png" 500].length - 1) :=
  ⟨by decide,
   (wasted_bytes_correct exampleHash defaultOptions "/r" treeDup).1 "1"
     [recordOf "/r/a.png" "a.png" 500, recordOf "/r/b.png" "b.png" 500] 500
     (by decide) (by decide) (by decide)⟩

/-- Claim C8: the reported duplicate groups are sorted by descending wasted
bytes, and among groups with equal wasted bytes the order is the discovery
order (`rawGroupList` lists the buckets in hash-map insertion order, i.e. in
the order each group's first file was encountered; the sort is stable with
respect to it). -/
theorem groups_sorted_descending (md5 : List Nat → String)
    (opts : ScanOptions) (rootDir : String) (root : FSTree) :
    ((analyze md5 opts rootDir root).duplicateGroups.Pairwise
      (fun a b => b.wastedBytes ≤ a.wastedBytes))
    ∧ ∀ w : Nat,
      (analyze md5 opts rootDir root).duplicateGroups.filter
          (fun g => g.wastedBytes == w) =
        (rawGroupList md5 opts rootDir root).filter
          (fun g => g.wastedBytes == w) := by
  constructor
  · rw [analyze_duplicateGroups]
    exact sortGroups_sorted _
  · intro w
    rw [analyze_duplicateGroups]
    exact filter_sortGroups w _

/-- Counterexample to claim C6 (which asserts `totalFilesProcessed` equals
the number of successfully hashed files): with a single eligible file whose
read fails, the processed counter is 1 while the hash map stores no record. -/
theorem processed_ne_hashed_cex :
    (analyze exampleHash defaultOptions "/r" treeBad).stats.totalFilesProcessed
        = 1
    ∧ sumRecords
        (finalState exampleHash defaultOptions "/r" treeBad).filesByHash = 0
    ∧ ¬ ((analyze exampleHash defaultOptions "/r"
          treeBad).stats.totalFilesProcessed =
        sumRecords
          (finalState exampleHash defaultOptions "/r" treeBad).filesByHash) :=
  by decide

/-- A tree mixing unreadable files the scan never reads with readable
duplicates: an unreadable png inside an excluded `node_modules` directory, an
unreadable file with a disallowed extension, an unreadable png below the
minimum size, and two readable byte-identical pngs. -/
def treeMixed : FSTree :=
  .dir "r" (.cons (.dir "node_modules" (.cons (.file "x.png" (some 500) none)
      .nil))
    (.cons (.file "notes.txt" (some 500) none)
      (.cons (.file "small.png" (some 10) none)
        (.cons (.file "a.png" (some 500) (some [1, 2]))
          (.cons (.file "b.png" (some 500) (some [1, 2])) .nil)))))

/-- Claim C6 as amended: `totalFilesProcessed` counts the files submitted to
hashing (those passing all filters and the size threshold), including files
whose read subsequently fails; whenever every submitted file is read
successfully it equals the number of `FileRecord` entries stored in the hash
index.  Files the scan never reads — excluded, disallowed extension, below
the minimum size, or behind a `statSync` throw — impose no condition. -/
theorem processed_eq_hashed_when_readable (md5 : List Nat → String)
    (opts : ScanOptions) (rootDir : String) (root : FSTree)
    (hrd : submittedReadRoot opts rootDir root = true) :
    (analyze md5 opts rootDir root).stats.totalFilesProcessed =
      sumRecords (finalState md5 opts rootDir root).filesByHash := by
  rw [analyze_totalFilesProcessed, finalState_processedFiles md5 opts rootDir
    root hrd, finalState_filesByHash, sumRecords_stApply]
  simp [sumRecords]

/-- Witness for the amended C6: in a tree whose unreadable files are all
outside the submitted set (excluded, wrong extension, or undersized), every
submitted file reads successfully and the processed counter equals the
stored record count (both 2). -/
theorem processed_eq_hashed_when_readable_witness :
    submittedReadRoot defaultOptions "/r" treeMixed = true
    ∧ (analyze exampleHash defaultOptions "/r"
          treeMixed).stats.totalFilesProcessed
        = sumRecords
            (finalState exampleHash defaultOptions "/r" treeMixed).filesByHash :=
  ⟨by decide,
   processed_eq_hashed_when_readable exampleHash defaultOptions "/r" treeMixed
     (by decide)⟩

/-- Claim C7: per-file and per-directory I/O failures never escape the scan —
a file whose content read fails is counted as processed but omitted from the
hash map, and the loop continues (`.ok`); an unreadable directory leaves the
state unchanged and the loop continues; and scanning a subdirectory never
propagates an abort to the enclosing loop, so the walk always completes and
`analyze` always returns a report. -/
theorem io_failures_never_escape (md5 : List Nat → String)
    (opts : ScanOptions) (rootDir : String) :
    (∀ (relDir name : String) (size : Nat) (st : ScanState),
      shouldExclude opts (joinPath relDir name) = false →
      hasValidExtension opts name = true →
      (size : Int) ≥ opts.minSize →
      scanEntry md5 opts rootDir relDir (.file name (some size) none) st =
        .ok { st with totalFiles := st.totalFiles + 1,
                      processedFiles := st.processedFiles + 1 })
    ∧ (∀ (relDir name : String) (st : ScanState),
        scanEntry md5 opts rootDir relDir (.unreadableDir name) st = .ok st)
    ∧ (∀ (relDir name : String) (children : FSForest) (st : ScanState),
        ∃ s, scanEntry md5 opts rootDir relDir (.dir name children) st =
          .ok s) := by
  refine ⟨?_, ?_, ?_⟩
  · intro relDir name size st hexc hext hsz
    simp [scanEntry, hexc, hext, hsz, processFile, getFileHash]
  · intro relDir name st
    simp [scanEntry]
  · intro relDir name children st
    by_cases hexc : shouldExclude opts (joinPath relDir name)
    · exact ⟨st, by simp [scanEntry, hexc]⟩
    · rcases hres : scanForest md5 opts rootDir (joinPath relDir name)
        children st with s | s <;>
        exact ⟨s, by simp [scanEntry, hexc, hres]⟩

/-- Witness for C7: a failing read on an eligible file is absorbed, and an
unreadable directory is skipped. -/
theorem io_failures_never_escape_witness :
    hasValidExtension defaultOptions "a.png" = true
    ∧ scanEntry exampleHash defaultOptions "/r" ""
        (.file "a.png" (some 200) none) initState =
      .ok { initState with totalFiles := 1, processedFiles := 1 }
    ∧ scanEntry exampleHash defaultOptions "/r" "" (.unreadableDir "d")
        initState = .ok initState :=
  ⟨by decide,
   (io_failures_never_escape exampleHash defaultOptions "/r").1 "" "a.png" 200
     initState (by decide) (by decide) (by decide),
   (io_failures_never_escape exampleHash defaultOptions "/r").2.1 "" "d"
     initState⟩

theorem two_mem_one_lt_length {α : Type} {l : List α} {a b : α}
    (ha : a ∈ l) (hb : b ∈ l) (hne : a ≠ b) : 1 < l.length := by
  cases l with
  | nil => cases ha
  | cons x t =>
    cases t with
    | nil =>
      rcases List.mem_singleton.mp ha with rfl
      rcases List.mem_singleton.mp hb with rfl
      exact absurd rfl hne
    | cons y u =>
      simp only [List.length_cons]
      omega

theorem pair_eq_of_path_eq {ps : List (FileRecord × List Nat)}
    (hpw : ps.Pairwise (fun a b => a.1.relativePath ≠ b.1.relativePath))
    {x y : FileRecord × List Nat} (hx : x ∈ ps) (hy : y ∈ ps)
    (hpath : x.1.relativePath = y.1.relativePath) : x = y := by
  by_contra hne
  exact List.Pairwise.forall (fun _ _ h => h.symm) hpw hx hy hne hpath

/-- Claim C1: for any two distinct files that pass all filters and are
successfully hashed (i.e. occur in the scan's (record, content) trace), if
their contents are byte-identical they appear together in one duplicate
group of the report, and if their contents differ they never share a group —
under the hypotheses that the digest is injective on the scanned contents
and that the scanned relative paths are pairwise distinct (as they are on a
real file system, where sibling names are unique). -/
theorem identical_content_same_group (md5 : List Nat → String)
    (opts : ScanOptions) (rootDir : String) (root : FSTree)
    (hpw : (pairsRoot opts rootDir root).Pairwise
      (fun a b => a.1.relativePath ≠ b.1.relativePath))
    (hinj : ∀ c c' : List Nat,
      (∃ r, (r, c) ∈ pairsRoot opts rootDir root) →
      (∃ r, (r, c') ∈ pairsRoot opts rootDir root) →
      md5 c = md5 c' → c = c')
    (r1 r2 : FileRecord) (c1 c2 : List Nat)
    (h1 : (r1, c1) ∈ pairsRoot opts rootDir root)
    (h2 : (r2, c2) ∈ pairsRoot opts rootDir root)
    (hner : r1 ≠ r2) :
    (c1 = c2 → ∃ g ∈ (analyze md5 opts rootDir root).duplicateGroups,
      r1.relativePath ∈ g.files ∧ r2.relativePath ∈ g.files)
    ∧ (c1 ≠ c2 → ∀ g ∈ (analyze md5 opts rootDir root).duplicateGroups,
      ¬ (r1.relativePath ∈ g.files ∧ r2.relativePath ∈ g.files)) := by
  constructor
  · intro hceq
    subst hceq
    have hr1 : r1 ∈ lookupBucket
        (finalState md5 opts rootDir root).filesByHash (md5 c1) :=
      (mem_lookupBucket_finalState md5 opts rootDir root _ _).mpr ⟨c1, h1, rfl⟩
    have hr2 : r2 ∈ lookupBucket
        (finalState md5 opts rootDir root).filesByHash (md5 c1) :=
      (mem_lookupBucket_finalState md5 opts rootDir root _ _).mpr ⟨c1, h2, rfl⟩
    have hlen := two_mem_one_lt_length hr1 hr2 hner
    have hne0 : lookupBucket
        (finalState md5 opts rootDir root).filesByHash (md5 c1) ≠ [] := by
      intro h0
      rw [h0] at hr1
      cases hr1
    have hentry := mem_of_lookupBucket
      (finalState md5 opts rootDir root).filesByHash (md5 c1) hne0
    refine ⟨mkGroup (md5 c1) (lookupBucket
      (finalState md5 opts rootDir root).filesByHash (md5 c1)), ?_, ?_, ?_⟩
    · rw [analyze_duplicateGroups, mem_sortGroups]
      exact mem_buildGroups_of _ _ _ hentry hlen
    · simp only [mkGroup]
      exact List.mem_map.mpr ⟨r1, hr1, rfl⟩
    · simp only [mkGroup]
      exact List.mem_map.mpr ⟨r2, hr2, rfl⟩
  · intro hcne g hg hboth
    obtain ⟨hp1, hp2⟩ := hboth
    rw [analyze_duplicateGroups, mem_sortGroups] at hg
    obtain ⟨h, files, hmem, hlen, rfl⟩ := mem_buildGroups_elim _ _ hg
    simp only [mkGroup] at hp1 hp2
    obtain ⟨r1', hr1', hpath1⟩ := List.mem_map.mp hp1
    obtain ⟨r2', hr2', hpath2⟩ := List.mem_map.mp hp2
    have hlk : lookupBucket (finalState md5 opts rootDir root).filesByHash h
        = files :=
      lookupBucket_eq_of_mem _ _ _ (finalState_keysNodup md5 opts rootDir root)
        hmem
    rw [← hlk] at hr1' hr2'
    obtain ⟨c1', hc1', hmd1⟩ :=
      (mem_lookupBucket_finalState md5 opts rootDir root _ _).mp hr1'
    obtain ⟨c2', hc2', hmd2⟩ :=
      (mem_lookupBucket_finalState md5 opts rootDir root _ _).mp hr2'
    have he1 : ((r1', c1') : FileRecord × List Nat) = (r1, c1) :=
      pair_eq_of_path_eq hpw hc1' h1 hpath1
    have he2 : ((r2', c2') : FileRecord × List Nat) = (r2, c2) :=
      pair_eq_of_path_eq hpw hc2' h2 hpath2
    have ec1 : c1' = c1 := congrArg Prod.snd he1
    have ec2 : c2' = c2 := congrArg Prod.snd he2
    apply hcne
    apply hinj c1 c2 ⟨r1, h1⟩ ⟨r2, h2⟩
    rw [← ec1, ← ec2, hmd1, hmd2]

/-- The example digest is injective on the contents scanned in `treeDup`. -/
theorem exampleHash_injOn_treeDup : ∀ c c' : List Nat,
    (∃ r, (r, c) ∈ pairsRoot defaultOptions "/r" treeDup) →
    (∃ r, (r, c') ∈ pairsRoot defaultOptions "/r" treeDup) →
    exampleHash c = exampleHash c' → c = c' := by
  have hl : pairsRoot defaultOptions "/r" treeDup =
      [(recordOf "/r/a.png" "a.png" 500, [1, 2]),
       (recordOf "/r/b.png" "b.png" 500, [1, 2]),
       (recordOf "/r/c.png" "c.png" 500, [3])] := by decide
  intro c c' hc hc' hmd
  obtain ⟨r1, hr1⟩ := hc
  obtain ⟨r2, hr2⟩ := hc'
  rw [hl] at hr1 hr2
  simp only [List.mem_cons, List.not_mem_nil, or_false, Prod.mk.injEq] at hr1 hr2
  rcases hr1 with ⟨_, e1⟩ | ⟨_, e1⟩ | ⟨_, e1⟩ <;>
    rcases hr2 with ⟨_, e2⟩ | ⟨_, e2⟩ | ⟨_, e2⟩ <;>
    subst e1 <;> subst e2 <;>
    first
      | rfl
      | exact absurd hmd (by decide)

/-- Witness for C1: in the scenario-A tree, the two byte-identical pngs land
in one duplicate group together. -/
theorem identical_content_same_group_witness :
    (recordOf "/r/a.png" "a.png" 500 ≠ recordOf "/r/b.png" "b.png" 500)
    ∧ ∃ g ∈ (analyze exampleHash defaultOptions "/r" treeDup).duplicateGroups,
        (recordOf "/r/a.png" "a.png" 500).relativePath ∈ g.files ∧
        (recordOf "/r/b.png" "b.png" 500).relativePath ∈ g.files :=
  ⟨by decide,
   (identical_content_same_group exampleHash defaultOptions "/r" treeDup
     (by decide) exampleHash_injOn_treeDup
     (recordOf "/r/a.png" "a.png" 500) (recordOf "/r/b.png" "b.png" 500)
     [1, 2] [1, 2] (by decide) (by decide) (by decide)).1 rfl⟩

end AssetAudit
